import Mathlib

/-!
Verification of the scoped file-discovery and I/O-path-resolution engine of the
dsv-scripts repository (src/dsv_scripts), as a shallow embedding in Lean 4.

Paths are modelled as lists of name components measured from the filesystem
root (an absolute path), and a filesystem as a finite list of existing entries,
each marked as a directory or a regular file.  Python's pathlib operations
(resolve, is_dir, is_file, rglob, suffix, relative_to, is_relative_to, mkdir)
are embedded component-wise; glob pattern matching supports the star and
question-mark metacharacters exactly as fnmatch does on the patterns the
source constructs.  Fallible operations (SystemExit, FileNotFoundError)
are embedded with Except.
-/

namespace DSV

/-- An absolute filesystem path: the list of name components from the root. -/
abbrev AbsPath := List String

/-- A raw command-line path string, already split into components, with a flag
recording whether it was written as an absolute path. -/
structure RawPath where
  isAbs : Bool
  comps : List String
deriving DecidableEq, Repr

/-- A filesystem: the list of existing entries; the Bool is true for
directories and false for regular files. -/
structure FS where
  entries : List (AbsPath × Bool)
deriving DecidableEq, Repr

/-- Membership of a path in the filesystem (any kind of entry). -/
def FS.exists? (fs : FS) (p : AbsPath) : Bool :=
  fs.entries.any (fun e => decide (e.1 = p))

/-- The path exists and is a directory (pathlib Path.is_dir). -/
def FS.isDir (fs : FS) (p : AbsPath) : Bool :=
  fs.entries.any (fun e => decide (e.1 = p) && e.2)

/-- The path exists and is a regular file (pathlib Path.is_file). -/
def FS.isFile (fs : FS) (p : AbsPath) : Bool :=
  fs.entries.any (fun e => decide (e.1 = p) && !e.2)

/-- Resolution of path components against a base, handling the single-dot and
double-dot components as Path.resolve does on a symlink-free tree. -/
def resolveComps (base : List String) (comps : List String) : AbsPath :=
  comps.foldl
    (fun acc c =>
      if c = "." then acc else if c = ".." then acc.dropLast else acc ++ [c])
    base

/-- Path(raw).resolve(): absolute raw paths resolve from the root, relative
ones from the current working directory. -/
def RawPath.resolve (r : RawPath) (cwd : AbsPath) : AbsPath :=
  resolveComps (if r.isAbs then [] else cwd) r.comps

/-- The raw path written as a single dot, denoting the current directory. -/
def dotRaw : RawPath := ⟨false, ["."]⟩

/-- Fuel-indexed fnmatch-style matcher for glob patterns over a name: star
matches any (possibly empty) run of characters, the question mark matches one
character, anything else matches itself.  The fuel only bounds recursion depth;
with the fuel supplied by globMatch it is never exhausted, since every
recursive call shrinks the combined length of pattern and name. -/
def globMatchF : Nat → List Char → List Char → Bool
  | 0, _, _ => false
  | _ + 1, [], name => name.isEmpty
  | fuel + 1, '*' :: ps, [] => globMatchF fuel ps []
  | fuel + 1, '*' :: ps, c :: cs =>
      globMatchF fuel ps (c :: cs) || globMatchF fuel ('*' :: ps) cs
  | _ + 1, '?' :: _, [] => false
  | fuel + 1, '?' :: ps, _ :: cs => globMatchF fuel ps cs
  | _ + 1, _ :: _, [] => false
  | fuel + 1, p :: ps, c :: cs => decide (p = c) && globMatchF fuel ps cs

/-- Whether a name matches a glob pattern (fnmatch semantics for the star and
question-mark metacharacters, case-sensitive as on POSIX). -/
def globMatch (pattern name : String) : Bool :=
  globMatchF (pattern.length + name.length + 1) pattern.toList name.toList

/-- The final name component of a path (pathlib Path.name; empty at the root). -/
def nameOf (p : AbsPath) : String := p.getLastD ""

/-- ASCII lower-casing of one character, modelling str.lower on the ASCII
range used by extension strings. -/
def lowerChar (c : Char) : Char :=
  if 65 ≤ c.toNat ∧ c.toNat ≤ 90 then Char.ofNat (c.toNat + 32) else c

/-- ASCII lower-casing of a string (str.lower). -/
def lowerStr (s : String) : String := (s.toList.map lowerChar).asString

/-- Python's Path.suffix: the part of the final name from its last dot,
nonempty only when that dot is neither the first nor the last character.
The characters after the last dot are computed as the longest dot-free
suffix of the name. -/
def pySuffix (name : String) : String :=
  if 0 < (name.toList.reverse.takeWhile (fun c => decide (c ≠ '.'))).length ∧
      (name.toList.reverse.takeWhile (fun c => decide (c ≠ '.'))).length + 1
        < name.toList.length then
    ('.' :: (name.toList.reverse.takeWhile (fun c => decide (c ≠ '.'))).reverse).asString
  else
    ""

/-- The sentinel extension tuple meaning match-everything
(the all_exts value in get_relevant_file_paths). -/
def allExts : List String := [".*"]

/-- Normalization applied to the allowed_exts arguments: a dot is prepended to
each entry (without stripping any dot already present) and the result is
lower-cased; an empty collection becomes the match-everything sentinel. -/
def normalizeExts (exts : List String) : List String :=
  if exts.isEmpty then allExts else exts.map (fun e => lowerStr ("." ++ e))

/-- Pathlib's is_relative_to: the candidate directory is a component-wise
ancestor of (or equal to) the path. -/
def isRelativeTo (p dir : AbsPath) : Bool :=
  match dir, p with
  | [], _ => true
  | _ :: _, [] => false
  | d :: ds, a :: as => decide (d = a) && isRelativeTo as ds

/-- Pathlib's relative_to on a path known to lie under the directory:
drop the directory components. -/
def relativeTo (p dir : AbsPath) : AbsPath := p.drop dir.length

/-- Lexicographic code-point comparison of character lists: the order Python
uses to compare name strings. -/
def charListLt : List Char → List Char → Bool
  | [], [] => false
  | [], _ :: _ => true
  | _ :: _, [] => false
  | a :: as, b :: bs => if a < b then true else if b < a then false else charListLt as bs

/-- Lexicographic code-point comparison of strings. -/
def strLt (a b : String) : Bool := charListLt a.toList b.toList

/-- Strict ordering of paths by their component lists, as pathlib orders
paths by their list of parts. -/
def pathLt : AbsPath → AbsPath → Bool
  | [], [] => false
  | [], _ :: _ => true
  | _ :: _, [] => false
  | a :: as, b :: bs => if strLt a b then true else if strLt b a then false else pathLt as bs

/-- Insertion into a strictly sorted duplicate-free list, keeping it so:
the combination models accumulating paths into a set and sorting it. -/
def pathInsert (a : AbsPath) : List AbsPath → List AbsPath
  | [] => [a]
  | b :: l =>
    if pathLt a b then a :: b :: l
    else if a = b then b :: l
    else b :: pathInsert a l

/-- The sorted duplicate-free list of the collected paths: models building the
set file_paths and then applying sorted to it. -/
def sortD (l : List AbsPath) : List AbsPath := l.foldr pathInsert []

/-- Errors of the path-resolution and discovery engine.  The first three are
fatal SystemExit(1) conditions raised by get_dir_path and
get_input_and_output_dir_paths; the last is the FileNotFoundError raised by
resolve(strict=True) inside get_relevant_file_paths. -/
inductive Err
  | notADirectory
  | notFound
  | sameDirectory
  | fileNotFound
deriving DecidableEq, Repr

deriving instance DecidableEq for Except

/-- Path.rglob over a directory: every entry strictly below it, at any depth,
whose final name matches the pattern — directories match as well as files,
exactly as pathlib globbing does. -/
def rglob (fs : FS) (dir : AbsPath) (pattern : String) : List AbsPath :=
  fs.entries.filterMap
    (fun e =>
      if isRelativeTo e.1 dir ∧ e.1 ≠ dir ∧ globMatch pattern (nameOf e.1) then
        some e.1
      else none)

/-- The paths one raw_path argument contributes inside the loop of
get_relevant_file_paths: resolve it strictly, then recursively glob it per
allowed extension if it is a directory, else admit it as a file when the
sentinel is active or its lower-cased suffix is among the allowed extensions,
else skip it. -/
def contribution (fs : FS) (cwd : AbsPath) (allowed : List String)
    (raw : RawPath) : Except Err (List AbsPath) :=
  if fs.exists? (raw.resolve cwd) = false then .error .fileNotFound
  else if fs.isDir (raw.resolve cwd) then
    .ok ((allowed.map (fun ext => rglob fs (raw.resolve cwd) ("*" ++ ext))).flatten)
  else if allowed = allExts ∨
      lowerStr (pySuffix (nameOf (raw.resolve cwd))) ∈ allowed then
    .ok [raw.resolve cwd]
  else
    .ok []

/-- The loop of get_relevant_file_paths accumulating the file_paths set
(represented as a list later deduplicated by sortD). -/
def collectFilePaths (fs : FS) (cwd : AbsPath) (raws : List RawPath)
    (allowed : List String) : Except Err (List AbsPath) :=
  raws.foldlM (fun acc raw => (contribution fs cwd allowed raw).map (acc ++ ·)) []

/-- The default applied to raw_paths: an empty argument list is replaced by
the single-dot path, i.e. the current working directory. -/
def defaultRaws (raws : List RawPath) : List RawPath :=
  if raws.isEmpty then [dotRaw] else raws

/-- Resolution of the parent_dir parameter: the current working directory when
omitted, checked to exist (resolve(strict=True)). -/
def resolveScope (fs : FS) (cwd : AbsPath) (parent_dir : Option AbsPath) :
    Except Err AbsPath :=
  let scope := parent_dir.getD cwd
  if fs.exists? scope then .ok scope else .error .fileNotFound

/-- The final comprehension of get_relevant_file_paths: sort the collected
set, keep the paths relative to the scope, and rewrite each relative to it. -/
def relevantOutput (scope : AbsPath) (c : List AbsPath) : List (List String) :=
  ((sortD c).filter (fun a => isRelativeTo a scope)).map (fun a => relativeTo a scope)

/-- get_relevant_file_paths with the extension tuple already normalized. -/
def getRelevantAllowed (fs : FS) (cwd : AbsPath) (raws : List RawPath)
    (allowed : List String) (parent_dir : Option AbsPath) :
    Except Err (List (List String)) := do
  let scope ← resolveScope fs cwd parent_dir
  let c ← collectFilePaths fs cwd (defaultRaws raws) allowed
  return relevantOutput scope c

/-- utils.get_relevant_file_paths. -/
def get_relevant_file_paths (fs : FS) (cwd : AbsPath) (raws : List RawPath)
    (exts : List String) (parent_dir : Option AbsPath) :
    Except Err (List (List String)) :=
  getRelevantAllowed fs cwd raws (normalizeExts exts) parent_dir

example :
    get_relevant_file_paths
      ⟨[([], true), (["in"], true), (["in", "a.json"], false), (["in", "b.txt"], false)]⟩
      [] [] ["json"] (some ["in"]) = .ok [["a.json"]] := by decide

example :
    get_relevant_file_paths
      ⟨[([], true), (["in"], true), (["in", "a.json"], false), (["in", "b.txt"], false)]⟩
      [] [] [] (some ["in"]) = .ok [["a.json"], ["b.txt"]] := by decide

/-- Proper and improper leading segments of a path: the directories mkdir
creates with parents=True, plus the target itself. -/
def prefixesOf (p : AbsPath) : List AbsPath :=
  (List.range (p.length + 1)).map (fun n => p.take n)

/-- Path.mkdir(parents=True, exist_ok=True): create the target directory and
any missing ancestors; entries that already exist are left untouched. -/
def FS.mkdirParents (fs : FS) (p : AbsPath) : FS :=
  ⟨fs.entries ++
    ((prefixesOf p).filter (fun q => !(fs.exists? q))).map (fun q => (q, true))⟩

/-- utils.get_dir_path: resolve the raw path; an existing regular file is a
fatal error; otherwise create the directory when asked to; succeed only if it
is now a directory. -/
def get_dir_path (fs : FS) (cwd : AbsPath) (raw : RawPath)
    (create_if_missing : Bool) : Except Err (AbsPath × FS) :=
  let dir_path := raw.resolve cwd
  if fs.isFile dir_path then .error .notADirectory
  else
    let fs' := if create_if_missing then fs.mkdirParents dir_path else fs
    if fs'.isDir dir_path then .ok (dir_path, fs') else .error .notFound

/-- utils.get_input_and_output_dir_paths: resolve both directories passing
force as create_if_missing, and fail with the same-directory condition when
they coincide and force is not set. -/
def get_input_and_output_dir_paths (fs : FS) (cwd : AbsPath)
    (input_path output_path : RawPath) (force : Bool) :
    Except Err (AbsPath × AbsPath × FS) := do
  let (input_dir_path, fs1) ← get_dir_path fs cwd input_path force
  let (output_dir_path, fs2) ← get_dir_path fs1 cwd output_path force
  if input_dir_path = output_dir_path ∧ force = false then
    throw .sameDirectory
  else
    return (input_dir_path, output_dir_path, fs2)

theorem FS.isDir_mkdirParents_of_isDir {fs : FS} {p : AbsPath} (q : AbsPath)
    (h : fs.isDir p = true) : (fs.mkdirParents q).isDir p = true := by
  simp only [FS.isDir, FS.mkdirParents, List.any_append, Bool.or_eq_true] at h ⊢
  exact Or.inl h

theorem exceptOkBind {ε α β : Type} (x : α) (f : α → Except ε β) :
    ((Except.ok x : Except ε α) >>= f) = f x := rfl

theorem FS.isFile_mkdirParents (fs : FS) (p q : AbsPath) :
    (fs.mkdirParents q).isFile p = fs.isFile p := by
  simp only [FS.isFile, FS.mkdirParents, List.any_append]
  have h : (((prefixesOf q).filter (fun x => !(fs.exists? x))).map
      (fun q => (q, true))).any (fun e => decide (e.1 = p) && !e.2) = false := by
    simp [List.any_map, Function.comp]
  rw [h, Bool.or_false]

/-- C1: with input and output both resolving to an existing directory D,
the call with force=false fails with the same-directory condition, and the
call with force=true succeeds returning the pair (D, D). -/
theorem C1_resolve_input_output_pair (fs : FS) (cwd : AbsPath)
    (input output : RawPath) (D : AbsPath)
    (hi : input.resolve cwd = D) (ho : output.resolve cwd = D)
    (hdir : fs.isDir D = true) (hfile : fs.isFile D = false) :
    get_input_and_output_dir_paths fs cwd input output false
        = .error .sameDirectory ∧
    ∃ fs', get_input_and_output_dir_paths fs cwd input output true
        = .ok (D, D, fs') := by
  constructor
  · have e1 : get_dir_path fs cwd input false = .ok (D, fs) := by
      simp [get_dir_path, hi, hfile, hdir]
    have e2 : get_dir_path fs cwd output false = .ok (D, fs) := by
      simp [get_dir_path, ho, hfile, hdir]
    simp only [get_input_and_output_dir_paths, e1, exceptOkBind, e2]
    simp [throw, throwThe, MonadExceptOf.throw]
  · refine ⟨(fs.mkdirParents D).mkdirParents D, ?_⟩
    have e1 : get_dir_path fs cwd input true = .ok (D, fs.mkdirParents D) := by
      simp [get_dir_path, hi, hfile, FS.isDir_mkdirParents_of_isDir D hdir]
    have e2 : get_dir_path (fs.mkdirParents D) cwd output true
        = .ok (D, (fs.mkdirParents D).mkdirParents D) := by
      simp [get_dir_path, ho, FS.isFile_mkdirParents, hfile,
        FS.isDir_mkdirParents_of_isDir D (FS.isDir_mkdirParents_of_isDir D hdir)]
    simp only [get_input_and_output_dir_paths, e1, exceptOkBind, e2]
    simp [pure, Except.pure]

/-- Witness for C1 at a concrete one-directory filesystem. -/
theorem C1_resolve_input_output_pair_witness :
    get_input_and_output_dir_paths ⟨[([], true), (["d"], true)]⟩ []
        ⟨true, ["d"]⟩ ⟨true, ["d"]⟩ false = .error .sameDirectory ∧
    ∃ fs', get_input_and_output_dir_paths ⟨[([], true), (["d"], true)]⟩ []
        ⟨true, ["d"]⟩ ⟨true, ["d"]⟩ true = .ok (["d"], ["d"], fs') :=
  C1_resolve_input_output_pair _ _ _ _ ["d"]
    (by decide) (by decide) (by decide) (by decide)

theorem charListLt_trans {a b c : List Char} (h1 : charListLt a b = true)
    (h2 : charListLt b c = true) : charListLt a c = true := by
  induction a generalizing b c with
  | nil =>
    cases b with
    | nil => simp [charListLt] at h1
    | cons y ys =>
      cases c with
      | nil => simp [charListLt] at h2
      | cons z zs => simp [charListLt]
  | cons x xs ih =>
    cases b with
    | nil => simp [charListLt] at h1
    | cons y ys =>
      cases c with
      | nil => simp [charListLt] at h2
      | cons z zs =>
        simp only [charListLt] at h1 h2 ⊢
        by_cases hxy : x < y
        · by_cases hyz : y < z
          · simp [lt_trans hxy hyz]
          · by_cases hzy : z < y
            · simp [hyz, hzy] at h2
            · have hyz' : y = z := le_antisymm (le_of_not_lt hzy) (le_of_not_lt hyz)
              subst hyz'
              simp [hxy]
        · by_cases hyx : y < x
          · simp [hxy, hyx] at h1
          · have hxy' : x = y := le_antisymm (le_of_not_lt hyx) (le_of_not_lt hxy)
            subst hxy'
            simp only [hxy, if_neg, if_neg hyx] at h1
            by_cases hxz : x < z
            · simp [hxz]
            · by_cases hzx : z < x
              · simp [hxz, hzx] at h2
              · have hxz' : x = z := le_antisymm (le_of_not_lt hzx) (le_of_not_lt hxz)
                subst hxz'
                simp only [hxz, if_neg] at h2 ⊢
                exact ih h1 h2

theorem charListLt_eq_of_not {a b : List Char} (h1 : charListLt a b = false)
    (h2 : charListLt b a = false) : a = b := by
  induction a generalizing b with
  | nil =>
    cases b with
    | nil => rfl
    | cons y ys => simp [charListLt] at h1
  | cons x xs ih =>
    cases b with
    | nil => simp [charListLt] at h2
    | cons y ys =>
      simp only [charListLt] at h1 h2
      by_cases hxy : x < y
      · simp [hxy] at h1
      · by_cases hyx : y < x
        · simp [hyx] at h2
        · have hx : x = y := le_antisymm (le_of_not_lt hyx) (le_of_not_lt hxy)
          subst hx
          simp only [hxy, if_neg, lt_irrefl] at h1 h2
          rw [ih h1 h2]

theorem stringEq_of_toList {a b : String} (h : a.toList = b.toList) : a = b := by
  cases a
  cases b
  simp only [String.toList] at h
  simp [h]

theorem strLt_trans {a b c : String} (h1 : strLt a b = true) (h2 : strLt b c = true) :
    strLt a c = true := charListLt_trans h1 h2

theorem strLt_eq_of_not {a b : String} (h1 : strLt a b = false)
    (h2 : strLt b a = false) : a = b :=
  stringEq_of_toList (charListLt_eq_of_not h1 h2)

theorem pathLt_trans {a b c : AbsPath} (h1 : pathLt a b = true)
    (h2 : pathLt b c = true) : pathLt a c = true := by
  induction a generalizing b c with
  | nil =>
    cases b with
    | nil => simp [pathLt] at h1
    | cons y ys =>
      cases c with
      | nil => simp [pathLt] at h2
      | cons z zs => simp [pathLt]
  | cons x xs ih =>
    cases b with
    | nil => simp [pathLt] at h1
    | cons y ys =>
      cases c with
      | nil => simp [pathLt] at h2
      | cons z zs =>
        simp only [pathLt] at h1 h2 ⊢
        cases hxy : strLt x y with
        | true =>
          cases hyz : strLt y z with
          | true => simp [strLt_trans hxy hyz]
          | false =>
            cases hzy : strLt z y with
            | true => simp [hyz, hzy] at h2
            | false =>
              have hyz' : y = z := strLt_eq_of_not hyz hzy
              subst hyz'
              simp [hxy]
        | false =>
          cases hyx : strLt y x with
          | true => simp [hxy, hyx] at h1
          | false =>
            have hxy' : x = y := strLt_eq_of_not hxy hyx
            subst hxy'
            simp only [hxy, Bool.false_eq_true, if_false] at h1
            cases hxz : strLt x z with
            | true => simp [hxz]
            | false =>
              cases hzx : strLt z x with
              | true => simp [hxz, hzx] at h2
              | false =>
                have hxz' : x = z := strLt_eq_of_not hxz hzx
                subst hxz'
                simp only [hxz, Bool.false_eq_true, if_false] at h2 ⊢
                exact ih h1 h2

theorem pathLt_eq_of_not {a b : AbsPath} (h1 : pathLt a b = false)
    (h2 : pathLt b a = false) : a = b := by
  induction a generalizing b with
  | nil =>
    cases b with
    | nil => rfl
    | cons y ys => simp [pathLt] at h1
  | cons x xs ih =>
    cases b with
    | nil => simp [pathLt] at h2
    | cons y ys =>
      simp only [pathLt] at h1 h2
      cases hxy : strLt x y with
      | true => simp [hxy] at h1
      | false =>
        cases hyx : strLt y x with
        | true => simp [hyx] at h2
        | false =>
          have hx : x = y := strLt_eq_of_not hxy hyx
          subst hx
          simp only [hxy, Bool.false_eq_true, if_false] at h1 h2
          rw [ih h1 h2]

theorem mem_pathInsert {x a : AbsPath} {l : List AbsPath} :
    x ∈ pathInsert a l ↔ x = a ∨ x ∈ l := by
  induction l with
  | nil => simp [pathInsert]
  | cons b l ih =>
    simp only [pathInsert]
    cases h1 : pathLt a b with
    | true => simp [List.mem_cons]
    | false =>
      by_cases h2 : a = b
      · subst h2
        rw [if_neg (by simp), if_pos rfl]
        simp only [List.mem_cons]
        tauto
      · simp only [Bool.false_eq_true, if_false, if_neg h2, List.mem_cons, ih]
        tauto

theorem pairwise_pathInsert {a : AbsPath} {l : List AbsPath}
    (h : l.Pairwise (fun x y => pathLt x y = true)) :
    (pathInsert a l).Pairwise (fun x y => pathLt x y = true) := by
  induction l with
  | nil => simp [pathInsert]
  | cons b l ih =>
    rcases List.pairwise_cons.mp h with ⟨hb, hl⟩
    simp only [pathInsert]
    cases h1 : pathLt a b with
    | true =>
      refine List.pairwise_cons.mpr ⟨?_, h⟩
      intro y hy
      rcases List.mem_cons.mp hy with rfl | hy'
      · exact h1
      · exact pathLt_trans h1 (hb y hy')
    | false =>
      by_cases h2 : a = b
      · simpa [Bool.false_eq_true, if_false, h2] using h
      · simp only [Bool.false_eq_true, if_false, if_neg h2]
        refine List.pairwise_cons.mpr ⟨?_, ih hl⟩
        intro y hy
        rcases mem_pathInsert.mp hy with rfl | hy'
        · cases hba : pathLt b y with
          | true => rfl
          | false => exact absurd (pathLt_eq_of_not hba h1).symm h2
        · exact hb y hy'

theorem mem_sortD {x : AbsPath} {l : List AbsPath} : x ∈ sortD l ↔ x ∈ l := by
  unfold sortD
  induction l with
  | nil => simp
  | cons a l ih => simp [mem_pathInsert, ih]

theorem pairwise_sortD (l : List AbsPath) :
    (sortD l).Pairwise (fun x y => pathLt x y = true) := by
  unfold sortD
  induction l with
  | nil => simp
  | cons a l ih => exact pairwise_pathInsert ih

theorem isRelativeTo_iff {p dir : AbsPath} :
    isRelativeTo p dir = true ↔ ∃ t, dir ++ t = p := by
  induction dir generalizing p with
  | nil => simp [isRelativeTo]
  | cons d ds ih =>
    cases p with
    | nil => simp [isRelativeTo]
    | cons a as =>
      simp only [isRelativeTo, Bool.and_eq_true, decide_eq_true_eq, ih,
        List.cons_append, List.cons.injEq]
      constructor
      · rintro ⟨rfl, t, rfl⟩
        exact ⟨t, rfl, rfl⟩
      · rintro ⟨t, rfl, rfl⟩
        exact ⟨rfl, t, rfl⟩

theorem relativeTo_append (dir t : AbsPath) : relativeTo (dir ++ t) dir = t := by
  simp [relativeTo, List.drop_left]

theorem append_relativeTo {p dir : AbsPath} (h : isRelativeTo p dir = true) :
    dir ++ relativeTo p dir = p := by
  rcases isRelativeTo_iff.mp h with ⟨t, rfl⟩
  rw [relativeTo_append]

theorem isRelativeTo_append (dir t : AbsPath) : isRelativeTo (dir ++ t) dir = true :=
  isRelativeTo_iff.mpr ⟨t, rfl⟩

theorem mem_relevantOutput {scope : AbsPath} {c : List AbsPath} {p : List String} :
    p ∈ relevantOutput scope c ↔ (scope ++ p) ∈ c := by
  unfold relevantOutput
  constructor
  · intro hp
    rcases List.mem_map.mp hp with ⟨a, ha, rfl⟩
    rcases List.mem_filter.mp ha with ⟨ha1, ha2⟩
    rw [append_relativeTo ha2]
    exact mem_sortD.mp ha1
  · intro hc
    refine List.mem_map.mpr ⟨scope ++ p, ?_, relativeTo_append scope p⟩
    exact List.mem_filter.mpr ⟨mem_sortD.mpr hc, isRelativeTo_append scope p⟩

theorem getRelevantAllowed_eq {fs : FS} {cwd : AbsPath} {raws : List RawPath}
    {allowed : List String} {pd : Option AbsPath} {scope : AbsPath}
    (h1 : resolveScope fs cwd pd = .ok scope) :
    getRelevantAllowed fs cwd raws allowed pd
      = (collectFilePaths fs cwd (defaultRaws raws) allowed).map
          (relevantOutput scope) := by
  unfold getRelevantAllowed
  rw [h1, exceptOkBind]
  cases hc : collectFilePaths fs cwd (defaultRaws raws) allowed with
  | error e => simp [Except.map]
  | ok c => simp [Except.map, exceptOkBind, pure, Except.pure]

theorem getRel_ok {fs : FS} {cwd : AbsPath} {raws : List RawPath}
    {exts : List String} {pd : Option AbsPath} {scope : AbsPath}
    {l : List (List String)}
    (h1 : resolveScope fs cwd pd = .ok scope)
    (h3 : get_relevant_file_paths fs cwd raws exts pd = .ok l) :
    ∃ c, collectFilePaths fs cwd (defaultRaws raws) (normalizeExts exts) = .ok c ∧
      l = relevantOutput scope c := by
  unfold get_relevant_file_paths at h3
  rw [getRelevantAllowed_eq h1] at h3
  cases hc : collectFilePaths fs cwd (defaultRaws raws) (normalizeExts exts) with
  | error e => rw [hc] at h3; simp [Except.map] at h3
  | ok c =>
    rw [hc] at h3
    simp only [Except.map] at h3
    injection h3 with h3
    exact ⟨c, rfl, h3.symm⟩

theorem collect_singleton (fs : FS) (cwd : AbsPath) (allowed : List String)
    (r : RawPath) :
    collectFilePaths fs cwd [r] allowed = contribution fs cwd allowed r := by
  unfold collectFilePaths
  cases hc : contribution fs cwd allowed r with
  | error e => simp [hc, Except.map, Bind.bind, Except.bind]
  | ok x => simp [hc, Except.map, Bind.bind, Except.bind, pure, Except.pure]

/-- C6: the list returned by get_relevant_file_paths is strictly increasing in
the ordering of the corresponding absolute paths — hence duplicate-free and
sorted by a total, deterministic order, so a file reachable through several
raw-path arguments appears exactly once and reruns reproduce the sequence. -/
theorem C6_sorted_unique (fs : FS) (cwd : AbsPath) (raws : List RawPath)
    (exts : List String) (pd : Option AbsPath) (scope : AbsPath)
    (l : List (List String))
    (h1 : resolveScope fs cwd pd = .ok scope)
    (h2 : get_relevant_file_paths fs cwd raws exts pd = .ok l) :
    l.Pairwise (fun p q => pathLt (scope ++ p) (scope ++ q) = true) := by
  rcases getRel_ok h1 h2 with ⟨c, hc, rfl⟩
  unfold relevantOutput
  rw [List.pairwise_map]
  refine ((pairwise_sortD c).filter _).imp_of_mem ?_
  intro a b ha hb hab
  rcases List.mem_filter.mp ha with ⟨_, ha2⟩
  rcases List.mem_filter.mp hb with ⟨_, hb2⟩
  rw [append_relativeTo ha2, append_relativeTo hb2]
  exact hab

/-- Witness for C6: the same file supplied both directly and through its
directory appears once, and the result is strictly sorted. -/
theorem C6_sorted_unique_witness :
    get_relevant_file_paths
        ⟨[([], true), (["a"], true), (["a", "x.json"], false), (["a", "y.json"], false)]⟩
        [] [⟨true, ["a", "x.json"]⟩, ⟨true, ["a"]⟩] ["json"] (some ["a"])
        = .ok [["x.json"], ["y.json"]] ∧
    ([["x.json"], ["y.json"]] : List (List String)).Pairwise
      (fun p q => pathLt (["a"] ++ p) (["a"] ++ q) = true) :=
  ⟨by decide,
    C6_sorted_unique
      ⟨[([], true), (["a"], true), (["a", "x.json"], false), (["a", "y.json"], false)]⟩
      [] [⟨true, ["a", "x.json"]⟩, ⟨true, ["a"]⟩] ["json"] (some ["a"]) ["a"]
      [["x.json"], ["y.json"]] (by decide) (by decide)⟩

/-- C2 counterexample: with the scope directory itself named so that it
matches the recursive glob of a directory argument (a directory whose name
contains a dot, searched with the match-everything filter), the scope appears
in the result as the empty relative path — the path written as a single dot —
which is not a strict descendant of the scope. -/
theorem C2_scope_counterexample :
    get_relevant_file_paths
        ⟨[([], true), (["a"], true), (["a", "b.x"], true), (["a", "b.x", "c.json"], false)]⟩
        [] [⟨true, ["a"]⟩] [] (some ["a", "b.x"]) = .ok [[], ["c.json"]] ∧
    (["a", "b.x"] ++ ([] : List String)) = ["a", "b.x"] :=
  ⟨by decide, rfl⟩

/-- C2 amended: every path in the result is a descendant of the scope
directory (not necessarily strict: the scope itself can appear), expressed
relative to it, and the result represents exactly the collected candidate
paths that lie inside the scope — candidates outside the scope are excluded. -/
theorem C2_scope_membership (fs : FS) (cwd : AbsPath) (raws : List RawPath)
    (exts : List String) (pd : Option AbsPath) (scope : AbsPath)
    (c : List AbsPath) (l : List (List String))
    (h1 : resolveScope fs cwd pd = .ok scope)
    (h2 : collectFilePaths fs cwd (defaultRaws raws) (normalizeExts exts) = .ok c)
    (h3 : get_relevant_file_paths fs cwd raws exts pd = .ok l) :
    ∀ a : AbsPath,
      (∃ p, p ∈ l ∧ scope ++ p = a) ↔ (a ∈ c ∧ isRelativeTo a scope = true) := by
  rcases getRel_ok h1 h3 with ⟨c', hc', rfl⟩
  rw [hc'] at h2
  injection h2 with h2
  subst h2
  intro a
  constructor
  · rintro ⟨p, hp, rfl⟩
    exact ⟨mem_relevantOutput.mp hp, isRelativeTo_append scope p⟩
  · rintro ⟨ha, hrel⟩
    refine ⟨relativeTo a scope, ?_, append_relativeTo hrel⟩
    rw [mem_relevantOutput, append_relativeTo hrel]
    exact ha

/-- Witness for the amended C2 at a concrete filesystem. -/
theorem C2_scope_membership_witness :
    (∃ p, p ∈ [["f.json"]] ∧ ["s"] ++ p = ["s", "f.json"]) ↔
      ((["s", "f.json"] : AbsPath) ∈ [(["s", "f.json"] : AbsPath)] ∧
        isRelativeTo ["s", "f.json"] ["s"] = true) :=
  C2_scope_membership ⟨[([], true), (["s"], true), (["s", "f.json"], false)]⟩
    [] [⟨true, ["s"]⟩] [] (some ["s"]) ["s"] [["s", "f.json"]] [["f.json"]]
    (by decide) (by decide) (by decide) ["s", "f.json"]

/-- C5 counterexample: with the scope directory (parent_dir) different from
the current working directory, an empty raw-path list scans the current
working directory — not the scope — so the result differs from explicitly
scanning the scope directory. -/
theorem C5_default_counterexample :
    get_relevant_file_paths
        ⟨[([], true), (["a"], true), (["b"], true), (["a", "x.json"], false)]⟩
        ["b"] [] [] (some ["a"]) = .ok [] ∧
    get_relevant_file_paths
        ⟨[([], true), (["a"], true), (["b"], true), (["a", "x.json"], false)]⟩
        ["b"] [⟨true, ["a"]⟩] [] (some ["a"]) = .ok [["x.json"]] :=
  ⟨by decide, by decide⟩

/-- C5 amended: an empty raw-path list defaults to the single-dot path, i.e.
to scanning the current working directory; this coincides with scanning the
scope directory exactly in the case the scope is the current working
directory (in particular when parent_dir is omitted). -/
theorem C5_default_scan (fs : FS) (cwd : AbsPath) (exts : List String)
    (pd : Option AbsPath) :
    get_relevant_file_paths fs cwd [] exts pd
        = get_relevant_file_paths fs cwd [dotRaw] exts pd ∧
    (resolveComps [] cwd = cwd →
      get_relevant_file_paths fs cwd [] exts none
          = get_relevant_file_paths fs cwd [⟨true, cwd⟩] exts (some cwd)) := by
  constructor
  · simp [get_relevant_file_paths, getRelevantAllowed, defaultRaws]
  · intro h
    have hres : dotRaw.resolve cwd = (RawPath.mk true cwd).resolve cwd := by
      show resolveComps cwd ["."] = resolveComps [] cwd
      rw [h]
      simp [resolveComps]
    have hcontrib : ∀ allowed, contribution fs cwd allowed dotRaw
        = contribution fs cwd allowed (RawPath.mk true cwd) := by
      intro allowed
      unfold contribution
      rw [hres]
    have hscope : resolveScope fs cwd none = resolveScope fs cwd (some cwd) := rfl
    have hcollect : collectFilePaths fs cwd (defaultRaws []) (normalizeExts exts)
        = collectFilePaths fs cwd (defaultRaws [RawPath.mk true cwd])
            (normalizeExts exts) := by
      simp only [defaultRaws, List.isEmpty_nil, List.isEmpty_cons, if_true,
        Bool.false_eq_true, if_false]
      rw [collect_singleton, collect_singleton, hcontrib]
    unfold get_relevant_file_paths getRelevantAllowed
    rw [hscope]
    simp only [hcollect]

/-- Witness for the amended C5: a normalized current working directory. -/
theorem C5_default_scan_witness :
    get_relevant_file_paths
        ⟨[([], true), (["b"], true), (["b", "y.json"], false)]⟩ ["b"] [] [] none
      = get_relevant_file_paths
        ⟨[([], true), (["b"], true), (["b", "y.json"], false)]⟩ ["b"]
        [⟨true, ["b"]⟩] [] (some ["b"]) :=
  (C5_default_scan ⟨[([], true), (["b"], true), (["b", "y.json"], false)]⟩
    ["b"] [] none).2 (by decide)

theorem toList_dotAppend (s : String) : ("." ++ s).toList = '.' :: s.toList := by
  cases s
  rfl

theorem toList_lowerStr (s : String) : (lowerStr s).toList = s.toList.map lowerChar :=
  rfl

theorem lowerChar_dot : lowerChar '.' = '.' := by decide

theorem lowerChar_ne_dot {c : Char} (h : c ≠ '.') : lowerChar c ≠ '.' := by
  unfold lowerChar
  split
  · rename_i hcond
    have key : ∀ n, n < 91 → 65 ≤ n → ¬ (Char.ofNat (n + 32) = '.') := by decide
    exact key c.toNat (by omega) hcond.1
  · exact h

theorem pySuffix_cases (name : String) :
    pySuffix name = "" ∨
    ∃ c cs, (pySuffix name).toList = '.' :: c :: cs ∧ c ≠ '.' := by
  unfold pySuffix
  by_cases hcond :
      0 < (name.toList.reverse.takeWhile (fun c => decide (c ≠ '.'))).length ∧
      (name.toList.reverse.takeWhile (fun c => decide (c ≠ '.'))).length + 1
        < name.toList.length
  · rw [if_pos hcond]
    right
    cases hrev : (name.toList.reverse.takeWhile (fun c => decide (c ≠ '.'))).reverse with
    | nil =>
      exfalso
      rw [List.reverse_eq_nil_iff] at hrev
      rw [hrev] at hcond
      simp at hcond
    | cons c cs =>
      refine ⟨c, cs, ?_, ?_⟩
      · rfl
      · have hc : c ∈ name.toList.reverse.takeWhile (fun c => decide (c ≠ '.')) := by
          rw [← List.mem_reverse, hrev]
          exact List.mem_cons_self c cs
        have h2 := List.mem_takeWhile_imp hc
        simpa using h2
  · rw [if_neg hcond]
    left
    rfl

theorem lowerDotDot_ne_allExts (e : String) :
    ([lowerStr ("." ++ ("." ++ e))] : List String) ≠ allExts := by
  intro h
  have h1 : lowerStr ("." ++ ("." ++ e)) = ".*" := by simpa [allExts] using h
  have h2 := congrArg String.toList h1
  rw [toList_lowerStr, toList_dotAppend, toList_dotAppend] at h2
  simp [lowerChar_dot] at h2

theorem lowerSuffix_ne_dotdot (name e : String) :
    lowerStr (pySuffix name) ≠ lowerStr ("." ++ ("." ++ e)) := by
  intro h
  have h2 := congrArg String.toList h
  rw [toList_lowerStr, toList_lowerStr, toList_dotAppend, toList_dotAppend] at h2
  rcases pySuffix_cases name with hz | ⟨c, cs, hcs, hcne⟩
  · rw [hz] at h2
    simp at h2
  · rw [hcs] at h2
    simp only [List.map_cons, lowerChar_dot] at h2
    injection h2 with _ h3
    injection h3 with h4 _
    exact lowerChar_ne_dot hcne h4

/-- C7 counterexample: the extension filter entry already containing a dot is
not equivalent to the dotless entry — with a file a.json in the scope, the
dotless filter finds it and the dotted filter finds nothing. -/
theorem C7_dotted_counterexample :
    get_relevant_file_paths
        ⟨[([], true), (["in"], true), (["in", "a.json"], false)]⟩
        [] [⟨true, ["in"]⟩] [".json"] (some ["in"]) = .ok [] ∧
    get_relevant_file_paths
        ⟨[([], true), (["in"], true), (["in", "a.json"], false)]⟩
        [] [⟨true, ["in"]⟩] ["json"] (some ["in"]) = .ok [["a.json"]] :=
  ⟨by decide, by decide⟩

/-- C7 amended: the leading dot of a filter entry is not stripped — a further
dot is prepended, so the entry .e behaves as the literal allowed suffix ..e:
the call equals a call on that doubled-dot suffix set, and under it a raw
path naming a regular file is never matched, since a Python suffix contains
exactly one dot. -/
theorem C7_dotted_extension (fs : FS) (cwd : AbsPath) (raws : List RawPath)
    (pd : Option AbsPath) (e : String) :
    get_relevant_file_paths fs cwd raws ["." ++ e] pd
        = getRelevantAllowed fs cwd raws [lowerStr ("." ++ ("." ++ e))] pd ∧
    (∀ raw : RawPath, fs.exists? (raw.resolve cwd) = true →
      fs.isDir (raw.resolve cwd) = false →
      contribution fs cwd [lowerStr ("." ++ ("." ++ e))] raw = .ok []) := by
  constructor
  · simp [get_relevant_file_paths, normalizeExts]
  · intro raw hex hdir
    unfold contribution
    simp [hex, hdir, lowerDotDot_ne_allExts e,
      lowerSuffix_ne_dotdot (nameOf (raw.resolve cwd)) e]

/-- Witness for the amended C7 at a concrete file argument. -/
theorem C7_dotted_extension_witness :
    contribution ⟨[([], true), (["a.json"], false)]⟩ []
        [lowerStr ("." ++ ("." ++ "json"))] ⟨true, ["a.json"]⟩ = .ok [] :=
  (C7_dotted_extension ⟨[([], true), (["a.json"], false)]⟩ [] [] none "json").2
    ⟨true, ["a.json"]⟩ (by decide) (by decide)

/-- C3 counterexample: the same file A.JSON under the same filter json is
excluded when found by recursive enumeration of its directory (the glob over
the lower-cased pattern is case-sensitive) yet included when named directly
(the direct branch lower-cases the file suffix before comparing) — so
inclusion is not determined by the lower-cased suffix alone. -/
theorem C3_filter_counterexample :
    get_relevant_file_paths
        ⟨[([], true), (["in"], true), (["in", "A.JSON"], false)]⟩
        [] [⟨true, ["in"]⟩] ["json"] (some ["in"]) = .ok [] ∧
    get_relevant_file_paths
        ⟨[([], true), (["in"], true), (["in", "A.JSON"], false)]⟩
        [] [⟨true, ["in", "A.JSON"]⟩] ["json"] (some ["in"]) = .ok [["A.JSON"]] :=
  ⟨by decide, by decide⟩

/-- C3 amended: for a single raw-path argument, a regular file named directly
is included iff it lies in the scope and either the sentinel filter is active
or its lower-cased Python suffix is among the normalized extensions; a path
found through a directory argument is included iff its exact name matches the
case-sensitive glob pattern star-dot-extension of some normalized extension
(so for the empty filter the name must contain a dot, and matching an
upper-case suffix fails). -/
theorem C3_extension_filter (fs : FS) (cwd : AbsPath) (raw : RawPath)
    (exts : List String) (pd : Option AbsPath) (scope : AbsPath)
    (l : List (List String))
    (h1 : resolveScope fs cwd pd = .ok scope)
    (h3 : get_relevant_file_paths fs cwd [raw] exts pd = .ok l) :
    (fs.isDir (raw.resolve cwd) = false →
      l = if isRelativeTo (raw.resolve cwd) scope = true ∧
            (normalizeExts exts = allExts ∨
              lowerStr (pySuffix (nameOf (raw.resolve cwd))) ∈ normalizeExts exts)
          then [relativeTo (raw.resolve cwd) scope] else [])
    ∧ (fs.isDir (raw.resolve cwd) = true →
      ∀ p, p ∈ l ↔ ∃ ext ∈ normalizeExts exts,
        (scope ++ p) ∈ rglob fs (raw.resolve cwd) ("*" ++ ext)) := by
  rcases getRel_ok h1 h3 with ⟨c, hc, rfl⟩
  rw [show defaultRaws [raw] = [raw] from by simp [defaultRaws],
    collect_singleton] at hc
  constructor
  · intro hdir
    unfold contribution at hc
    by_cases hex : fs.exists? (raw.resolve cwd) = false
    · rw [if_pos hex] at hc
      exact absurd hc (by simp)
    · rw [if_neg hex, if_neg (by simp [hdir])] at hc
      by_cases hcond : normalizeExts exts = allExts ∨
          lowerStr (pySuffix (nameOf (raw.resolve cwd))) ∈ normalizeExts exts
      · rw [if_pos hcond] at hc
        injection hc with hc'
        cases hrel : isRelativeTo (raw.resolve cwd) scope with
        | true =>
          rw [if_pos (And.intro rfl hcond), ← hc']
          unfold relevantOutput
          rw [show sortD [raw.resolve cwd] = [raw.resolve cwd] from rfl]
          simp [hrel]
        | false =>
          rw [if_neg (by simp [hrel]), ← hc']
          unfold relevantOutput
          rw [show sortD [raw.resolve cwd] = [raw.resolve cwd] from rfl]
          simp [hrel]
      · rw [if_neg hcond] at hc
        injection hc with hc'
        rw [if_neg (by rintro ⟨hr1, hr2⟩; exact hcond hr2), ← hc']
        rfl
  · intro hdir
    unfold contribution at hc
    by_cases hex : fs.exists? (raw.resolve cwd) = false
    · rw [if_pos hex] at hc
      exact absurd hc (by simp)
    · rw [if_neg hex, if_pos hdir] at hc
      injection hc with hc'
      intro p
      rw [mem_relevantOutput, ← hc']
      simp only [List.mem_flatten, List.mem_map]
      constructor
      · rintro ⟨l', ⟨ext, hext, rfl⟩, hmem⟩
        exact ⟨ext, hext, hmem⟩
      · rintro ⟨ext, hext, hmem⟩
        exact ⟨rglob fs (raw.resolve cwd) ("*" ++ ext), ⟨ext, hext, rfl⟩, hmem⟩

/-- Witness for the amended C3: a directly named lower-case file. -/
theorem C3_extension_filter_witness :
    ([["a.json"]] : List (List String)) =
      if isRelativeTo ((RawPath.mk true ["s", "a.json"]).resolve []) ["s"] = true ∧
          (normalizeExts ["json"] = allExts ∨
            lowerStr (pySuffix (nameOf ((RawPath.mk true ["s", "a.json"]).resolve [])))
              ∈ normalizeExts ["json"])
      then [relativeTo ((RawPath.mk true ["s", "a.json"]).resolve []) ["s"]] else [] :=
  (C3_extension_filter ⟨[([], true), (["s"], true), (["s", "a.json"], false)]⟩
    [] ⟨true, ["s", "a.json"]⟩ ["json"] (some ["s"]) ["s"] [["a.json"]]
    (by decide) (by decide)).1 (by decide)

/-- Text filesystem for the command loops: an association list from paths to
file contents; a listed path exists, an unlisted one does not. -/
abbrev TextFS := List (AbsPath × String)

/-- Path.read_text: the content of the first entry for the path, if any. -/
def readText : TextFS → AbsPath → Option String
  | [], _ => none
  | e :: t, p => if e.1 = p then some e.2 else readText t p

/-- Path.write_text: replace the first entry for the path, or create it. -/
def writeText : TextFS → AbsPath → String → TextFS
  | [], p, s => [(p, s)]
  | e :: t, p, s => if e.1 = p then (p, s) :: t else e :: writeText t p s

theorem readText_writeText_self (t : TextFS) (p : AbsPath) (s : String) :
    readText (writeText t p s) p = some s := by
  induction t with
  | nil => simp [writeText, readText]
  | cons e t ih =>
    by_cases h : e.1 = p
    · simp [writeText, readText, h]
    · simp [writeText, readText, h, ih]

theorem readText_writeText_other {q p : AbsPath} (t : TextFS) (s : String)
    (h : q ≠ p) : readText (writeText t p s) q = readText t q := by
  induction t with
  | nil => simp [writeText, readText, Ne.symm h]
  | cons e t ih =>
    by_cases he : e.1 = p
    · subst he
      simp [writeText, readText, Ne.symm h]
    · simp only [writeText, if_neg he, readText]
      by_cases hq : e.1 = q
      · simp [hq]
      · simp [hq, ih]

/-- Running accumulator of the compression-style command loops:
bytes_saved, files_changed (files_written in tinify_pngs), warnings, and the
text filesystem being written to. -/
structure MState where
  bytes_saved : Int
  files_changed : Int
  warnings : Int
  tfs : TextFS
deriving DecidableEq, Repr

/-- The text minify_json.main produces for one input file: a verbatim copy
when the copy predicate matches, the minification transform otherwise.  The
transform itself (pyjson5 parse plus compact json dump) is an external
collaborator and is a parameter of the embedding. -/
def minifyOutput (sc : AbsPath → Bool) (tr : String → String) (p : AbsPath)
    (input_text : String) : String :=
  if sc p then input_text else tr input_text

/-- The state update of the minify branch: write the output file, then update
the byte and warning accounting from the sizes observed after the write (the
source stats both files only after writing). -/
def minifyWrite (sc : AbsPath → Bool) (tr : String → String) (st : MState)
    (f : AbsPath × AbsPath) (input_text : String) : MState :=
  { bytes_saved := st.bytes_saved +
      (((readText (writeText st.tfs f.2 (minifyOutput sc tr f.1 input_text))
            f.1).getD "").length : Int)
      - (((readText (writeText st.tfs f.2 (minifyOutput sc tr f.1 input_text))
            f.2).getD "").length : Int)
    files_changed := st.files_changed + 1
    warnings :=
      if ((((readText (writeText st.tfs f.2 (minifyOutput sc tr f.1 input_text))
            f.1).getD "").length : Int)
          - (((readText (writeText st.tfs f.2 (minifyOutput sc tr f.1 input_text))
            f.2).getD "").length : Int)) < 0
      then st.warnings - 1 else st.warnings
    tfs := writeText st.tfs f.2 (minifyOutput sc tr f.1 input_text) }

/-- One iteration of the loop of minify_json.main over a resolved
(input, output) pair: read the input (a missing input raises), skip when the
output already holds exactly the produced text, otherwise write — counting
and byte accounting only in the non-copy branch, exactly as the source. -/
def minifyStep (sc : AbsPath → Bool) (tr : String → String) (st : MState)
    (f : AbsPath × AbsPath) : Except Unit MState :=
  match readText st.tfs f.1 with
  | none => .error ()
  | some input_text =>
    if readText st.tfs f.2 = some (minifyOutput sc tr f.1 input_text) then .ok st
    else if sc f.1 then .ok { st with tfs := writeText st.tfs f.2 input_text }
    else .ok (minifyWrite sc tr st f input_text)

/-- The whole file loop of minify_json.main. -/
def minifyLoop (sc : AbsPath → Bool) (tr : String → String)
    (files : List (AbsPath × AbsPath)) (st : MState) : Except Unit MState :=
  files.foldlM (minifyStep sc tr) st

/-- minify_json.main: run the loop from zeroed counters and return
warnings or files_changed in the Python sense of or — the warnings
accumulator when it is nonzero (it is never positive), else the count of
files changed. -/
def minify_json_main (sc : AbsPath → Bool) (tr : String → String)
    (files : List (AbsPath × AbsPath)) (tfs : TextFS) :
    Except Unit (Int × TextFS) :=
  match minifyLoop sc tr files ⟨0, 0, 0, tfs⟩ with
  | .error e => .error e
  | .ok st =>
      .ok ((if st.warnings ≠ 0 then st.warnings else st.files_changed), st.tfs)

/-- The substitution re.compile of two newlines replaced by one, applied
left to right without overlap, as re.sub does. -/
def removeBlankLinesText : List Char → List Char
  | [] => []
  | '\n' :: '\n' :: rest => '\n' :: removeBlankLinesText rest
  | c :: rest => c :: removeBlankLinesText rest

/-- The blank-line-removing transform of remove_blank_lines.main. -/
def removeBlankLines (s : String) : String := (removeBlankLinesText s.toList).asString

/-- One iteration of the loop of remove_blank_lines.main: read the input,
skip when the output already holds the produced text, else write and count. -/
def rblStep (st : Int × TextFS) (f : AbsPath × AbsPath) :
    Except Unit (Int × TextFS) :=
  match readText st.2 f.1 with
  | none => .error ()
  | some input_text =>
    if readText st.2 f.2 = some (removeBlankLines input_text) then .ok st
    else .ok (st.1 + 1, writeText st.2 f.2 (removeBlankLines input_text))

/-- The whole file loop of remove_blank_lines.main. -/
def rblLoop (files : List (AbsPath × AbsPath)) (st : Int × TextFS) :
    Except Unit (Int × TextFS) :=
  files.foldlM rblStep st

/-- remove_blank_lines.main: run the loop and return files_changed. -/
def remove_blank_lines_main (files : List (AbsPath × AbsPath)) (tfs : TextFS) :
    Except Unit (Int × TextFS) :=
  rblLoop files (0, tfs)

/-- The files tinify_pngs.main decides to write: outputs that do not exist
yet, computed once before the loop. -/
def tinifyFilesToWrite (files : List (AbsPath × AbsPath)) (tfs : TextFS) :
    List AbsPath :=
  (files.filter (fun f => (readText tfs f.2).isNone)).map (fun f => f.2)

/-- The state update of the tinify branch, mirroring the minify accounting
with the external compression transform. -/
def tinifyWrite (tr : String → String) (st : MState) (f : AbsPath × AbsPath)
    (input_text : String) : MState :=
  { bytes_saved := st.bytes_saved +
      (((readText (writeText st.tfs f.2 (tr input_text)) f.1).getD "").length : Int)
      - (((readText (writeText st.tfs f.2 (tr input_text)) f.2).getD "").length : Int)
    files_changed := st.files_changed + 1
    warnings :=
      if ((((readText (writeText st.tfs f.2 (tr input_text)) f.1).getD "").length : Int)
          - (((readText (writeText st.tfs f.2 (tr input_text)) f.2).getD "").length : Int)) < 0
      then st.warnings - 1 else st.warnings
    tfs := writeText st.tfs f.2 (tr input_text) }

/-- One iteration of the loop of tinify_pngs.main: skip outputs that already
existed, copy verbatim when the copy predicate matches (counted), else run
the compression transform (counted, with warning accounting). -/
def tinifyStep (files_to_write : List AbsPath) (sc : AbsPath → Bool)
    (tr : String → String) (st : MState) (f : AbsPath × AbsPath) :
    Except Unit MState :=
  if f.2 ∉ files_to_write then .ok st
  else match readText st.tfs f.1 with
    | none => .error ()
    | some input_text =>
      if sc f.1 then
        .ok { st with
              tfs := writeText st.tfs f.2 input_text
              files_changed := st.files_changed + 1 }
      else .ok (tinifyWrite tr st f input_text)

/-- tinify_pngs.main: when some file needs writing and the external Tinify
setup fails (missing or invalid credential), return -1 before touching any
file; otherwise run the loop and return warnings or files_written. -/
def tinify_pngs_main (sc : AbsPath → Bool) (tr : String → String)
    (setupOk : Bool) (files : List (AbsPath × AbsPath)) (tfs : TextFS) :
    Except Unit (Int × TextFS) :=
  if tinifyFilesToWrite files tfs ≠ [] ∧ setupOk = false then .ok (-1, tfs)
  else
    match files.foldlM (tinifyStep (tinifyFilesToWrite files tfs) sc tr)
        ⟨0, 0, 0, tfs⟩ with
    | .error e => .error e
    | .ok st =>
        .ok ((if st.warnings ≠ 0 then st.warnings else st.files_changed), st.tfs)

example :
    minify_json_main (fun _ => false) (fun _ => "m")
        [(["i", "a.json"], ["o", "a.json"])] [(["i", "a.json"], "long")]
      = .ok (1, [(["i", "a.json"], "long"), (["o", "a.json"], "m")]) := by decide

example :
    remove_blank_lines_main [(["f"], ["g"])] [(["f"], "a\n\n\nb")]
      = .ok (1, [(["f"], "a\n\n\nb"), (["g"], "a\n\nb")]) := by decide

theorem minifyStep_counters {sc : AbsPath → Bool} {tr : String → String}
    {st : MState} {f : AbsPath × AbsPath} {st' : MState}
    (h : minifyStep sc tr st f = .ok st') :
    st'.warnings ≤ st.warnings ∧ st.files_changed ≤ st'.files_changed := by
  unfold minifyStep at h
  split at h
  · exact absurd h (by simp)
  · split at h
    · injection h with h
      subst h
      exact ⟨le_refl _, le_refl _⟩
    · split at h
      · injection h with h
        subst h
        exact ⟨le_refl _, le_refl _⟩
      · injection h with h
        subst h
        refine ⟨?_, ?_⟩
        · simp only [minifyWrite]
          split <;> omega
        · simp only [minifyWrite]
          omega

theorem minifyLoop_counters {sc : AbsPath → Bool} {tr : String → String} :
    ∀ {files : List (AbsPath × AbsPath)} {st st' : MState},
    minifyLoop sc tr files st = .ok st' →
    st'.warnings ≤ st.warnings ∧ st.files_changed ≤ st'.files_changed := by
  intro files
  induction files with
  | nil =>
    intro st st' h
    unfold minifyLoop at h
    simp only [List.foldlM_nil, pure, Except.pure] at h
    injection h with h
    subst h
    exact ⟨le_refl _, le_refl _⟩
  | cons f rest ih =>
    intro st st' h
    unfold minifyLoop at h
    rw [List.foldlM_cons] at h
    cases hs : minifyStep sc tr st f with
    | error e => rw [hs] at h; simp [Bind.bind, Except.bind] at h
    | ok st1 =>
      rw [hs, exceptOkBind] at h
      have h' : minifyLoop sc tr rest st1 = .ok st' := h
      have h1 := minifyStep_counters hs
      have h2 := ih h'
      exact ⟨le_trans h2.1 h1.1, le_trans h1.2 h2.2⟩

/-- C4 counterexample: one minified file that grows (input of one byte,
output of three) yields one size-regression warning, and the command returns
the internal accumulator -1 — a negative value, not a positive count, and
indistinguishable from the setup-failure sentinel. -/
theorem C4_exit_code_counterexample :
    minify_json_main (fun _ => false) (fun _ => "xxx")
        [(["i", "a.json"], ["o", "a.json"])] [(["i", "a.json"], "x")]
      = .ok (-1, [(["i", "a.json"], "x"), (["o", "a.json"], "xxx")]) ∧
    (-1 : Int) < 0 :=
  ⟨by decide, by decide⟩

/-- C4 amended: a completed minify run returns 0 on a no-op; when no warnings
occurred it returns the nonnegative count of files changed by the transform
branch; when any warning occurred it returns the internal warnings
accumulator itself, which is negative — not a positive count — and collides
with the negative setup-failure convention; tinify returns -1 when files need
writing and the external credential setup fails. -/
theorem C4_exit_codes :
    (∀ (sc : AbsPath → Bool) (tr : String → String) files tfs r t',
      minify_json_main sc tr files tfs = .ok (r, t') →
      ∃ st, minifyLoop sc tr files ⟨0, 0, 0, tfs⟩ = .ok st ∧ st.tfs = t' ∧
        st.warnings ≤ 0 ∧
        (st.warnings = 0 → r = st.files_changed ∧ 0 ≤ r) ∧
        (st.warnings ≠ 0 → r = st.warnings ∧ r < 0)) ∧
    (∀ (sc : AbsPath → Bool) (tr : String → String) files tfs,
      tinifyFilesToWrite files tfs ≠ [] →
      tinify_pngs_main sc tr false files tfs = .ok (-1, tfs)) := by
  constructor
  · intro sc tr files tfs r t' h
    unfold minify_json_main at h
    cases hl : minifyLoop sc tr files ⟨0, 0, 0, tfs⟩ with
    | error e => rw [hl] at h; exact absurd h (by simp)
    | ok st =>
      rw [hl] at h
      injection h with h
      rw [Prod.mk.injEq] at h
      have hc := minifyLoop_counters hl
      refine ⟨st, rfl, h.2, hc.1, ?_, ?_⟩
      · intro hw
        rw [← h.1, if_neg (by simp [hw])]
        exact ⟨rfl, hc.2⟩
      · intro hw
        rw [← h.1, if_pos hw]
        exact ⟨rfl, lt_of_le_of_ne hc.1 hw⟩
  · intro sc tr files tfs hne
    unfold tinify_pngs_main
    rw [if_pos ⟨hne, rfl⟩]

/-- Witness for the amended C4: an empty minify run returns 0, and a tinify
run with a missing output and failed setup returns -1. -/
theorem C4_exit_codes_witness :
    (∃ st, minifyLoop (fun _ => false) (fun _ => "y") [] ⟨0, 0, 0, []⟩ = .ok st ∧
      st.tfs = ([] : TextFS) ∧ st.warnings ≤ 0 ∧
      (st.warnings = 0 → (0 : Int) = st.files_changed ∧ (0 : Int) ≤ 0) ∧
      (st.warnings ≠ 0 → (0 : Int) = st.warnings ∧ (0 : Int) < 0)) ∧
    tinify_pngs_main (fun _ => false) (fun s => s) false [(["i"], ["o"])]
        [(["i"], "x")] = .ok (-1, [(["i"], "x")]) :=
  ⟨C4_exit_codes.1 (fun _ => false) (fun _ => "y") [] [] 0 [] (by decide),
    C4_exit_codes.2 (fun _ => false) (fun s => s) [(["i"], ["o"])] [(["i"], "x")]
      (by decide)⟩

theorem minifyStep_noop {sc : AbsPath → Bool} {tr : String → String}
    {st : MState} {f : AbsPath × AbsPath} {it : String}
    (h1 : readText st.tfs f.1 = some it)
    (h2 : readText st.tfs f.2 = some (minifyOutput sc tr f.1 it)) :
    minifyStep sc tr st f = .ok st := by
  unfold minifyStep
  rw [h1]
  simp [h2]

theorem minifyStep_reads {sc : AbsPath → Bool} {tr : String → String}
    {st : MState} {f : AbsPath × AbsPath} {st' : MState}
    (h : minifyStep sc tr st f = .ok st') {p : AbsPath} (hp : p ≠ f.2) :
    readText st'.tfs p = readText st.tfs p := by
  unfold minifyStep at h
  split at h
  · exact absurd h (by simp)
  · split at h
    · injection h with h
      subst h
      rfl
    · split at h
      · injection h with h
        subst h
        exact readText_writeText_other _ _ hp
      · injection h with h
        subst h
        exact readText_writeText_other _ _ hp

theorem minifyStep_writes {sc : AbsPath → Bool} {tr : String → String}
    {st : MState} {f : AbsPath × AbsPath} {st' : MState}
    (h : minifyStep sc tr st f = .ok st') :
    ∃ it, readText st.tfs f.1 = some it ∧
      readText st'.tfs f.2 = some (minifyOutput sc tr f.1 it) := by
  unfold minifyStep at h
  split at h
  · exact absurd h (by simp)
  · rename_i it hit
    refine ⟨it, hit, ?_⟩
    split at h
    · rename_i hcond
      injection h with h
      subst h
      exact hcond
    · split at h
      · rename_i hsc
        injection h with h
        subst h
        rw [show (minifyOutput sc tr f.1 it) = it from by simp [minifyOutput, hsc]]
        exact readText_writeText_self _ _ _
      · injection h with h
        subst h
        exact readText_writeText_self _ _ _

theorem minifyLoop_reads {sc : AbsPath → Bool} {tr : String → String} :
    ∀ {files : List (AbsPath × AbsPath)} {st st' : MState},
    minifyLoop sc tr files st = .ok st' →
    ∀ p, p ∉ files.map (fun f => f.2) →
    readText st'.tfs p = readText st.tfs p := by
  intro files
  induction files with
  | nil =>
    intro st st' h p _
    unfold minifyLoop at h
    simp only [List.foldlM_nil, pure, Except.pure] at h
    injection h with h
    subst h
    rfl
  | cons f0 rest ih =>
    intro st st' h p hp
    unfold minifyLoop at h
    rw [List.foldlM_cons] at h
    cases hs : minifyStep sc tr st f0 with
    | error e => rw [hs] at h; simp [Bind.bind, Except.bind] at h
    | ok st1 =>
      rw [hs, exceptOkBind] at h
      have h' : minifyLoop sc tr rest st1 = .ok st' := h
      have hp0 : p ≠ f0.2 := by
        intro hEq
        exact hp (by rw [List.map_cons]; exact List.mem_cons.mpr (Or.inl hEq))
      have hprest : p ∉ rest.map (fun f => f.2) := by
        intro hmem
        exact hp (by rw [List.map_cons]; exact List.mem_cons.mpr (Or.inr hmem))
      rw [ih h' p hprest]
      exact minifyStep_reads hs hp0

theorem outputs_disjoint_inputs {files : List (AbsPath × AbsPath)}
    (hdis : ∀ f, f ∈ files → f.2 ∉ files.map (fun g => g.1)) :
    ∀ f, f ∈ files → f.1 ∉ files.map (fun g => g.2) := by
  intro f hf hmem
  rcases List.mem_map.mp hmem with ⟨g, hg, hgeq⟩
  exact hdis g hg (by rw [hgeq]; exact List.mem_map.mpr ⟨f, hf, rfl⟩)

theorem minifyLoop_outputs {sc : AbsPath → Bool} {tr : String → String} :
    ∀ {files : List (AbsPath × AbsPath)} {st st' : MState},
    (files.map (fun f => f.2)).Nodup →
    (∀ f, f ∈ files → f.2 ∉ files.map (fun g => g.1)) →
    minifyLoop sc tr files st = .ok st' →
    ∀ f, f ∈ files → ∃ it, readText st.tfs f.1 = some it ∧
      readText st'.tfs f.2 = some (minifyOutput sc tr f.1 it) := by
  intro files
  induction files with
  | nil =>
    intro st st' _ _ _ f hf
    simp at hf
  | cons f0 rest ih =>
    intro st st' hnd hdis h f hf
    unfold minifyLoop at h
    rw [List.foldlM_cons] at h
    cases hs : minifyStep sc tr st f0 with
    | error e => rw [hs] at h; simp [Bind.bind, Except.bind] at h
    | ok st1 =>
      rw [hs, exceptOkBind] at h
      have h' : minifyLoop sc tr rest st1 = .ok st' := h
      rw [List.map_cons] at hnd
      have hnd' := List.nodup_cons.mp hnd
      rcases List.mem_cons.mp hf with rfl | hf'
      · rcases minifyStep_writes hs with ⟨it, hit, hpost⟩
        refine ⟨it, hit, ?_⟩
        rw [minifyLoop_reads h' f.2 hnd'.1]
        exact hpost
      · have hdis' : ∀ g, g ∈ rest → g.2 ∉ rest.map (fun q => q.1) := by
          intro g hg hmem
          apply hdis g (List.mem_cons_of_mem _ hg)
          rw [List.map_cons]
          exact List.mem_cons.mpr (Or.inr hmem)
        rcases ih hnd'.2 hdis' h' f hf' with ⟨it, hit1, hpost⟩
        refine ⟨it, ?_, hpost⟩
        have hne : f.1 ≠ f0.2 := by
          intro hEq
          apply hdis f0 (List.mem_cons_self f0 rest)
          rw [List.map_cons]
          exact List.mem_cons.mpr (Or.inr (List.mem_map.mpr ⟨f, hf', hEq⟩))
        rw [← hit1]
        exact (minifyStep_reads hs hne).symm

theorem minifyLoop_rerun {sc : AbsPath → Bool} {tr : String → String} :
    ∀ {files : List (AbsPath × AbsPath)} {st : MState},
    (∀ f, f ∈ files → ∃ it, readText st.tfs f.1 = some it ∧
      readText st.tfs f.2 = some (minifyOutput sc tr f.1 it)) →
    minifyLoop sc tr files st = .ok st := by
  intro files
  induction files with
  | nil => intro st _; rfl
  | cons f0 rest ih =>
    intro st hyp
    rcases hyp f0 (List.mem_cons_self f0 rest) with ⟨it, h1, h2⟩
    unfold minifyLoop
    rw [List.foldlM_cons, minifyStep_noop h1 h2, exceptOkBind]
    exact ih (fun f hf => hyp f (List.mem_cons_of_mem f0 hf))

theorem rblStep_noop {st : Int × TextFS} {f : AbsPath × AbsPath} {it : String}
    (h1 : readText st.2 f.1 = some it)
    (h2 : readText st.2 f.2 = some (removeBlankLines it)) :
    rblStep st f = .ok st := by
  unfold rblStep
  rw [h1]
  simp [h2]

theorem rblStep_reads {st : Int × TextFS} {f : AbsPath × AbsPath}
    {st' : Int × TextFS} (h : rblStep st f = .ok st') {p : AbsPath}
    (hp : p ≠ f.2) : readText st'.2 p = readText st.2 p := by
  unfold rblStep at h
  split at h
  · exact absurd h (by simp)
  · split at h
    · injection h with h
      subst h
      rfl
    · injection h with h
      subst h
      exact readText_writeText_other _ _ hp

theorem rblStep_writes {st : Int × TextFS} {f : AbsPath × AbsPath}
    {st' : Int × TextFS} (h : rblStep st f = .ok st') :
    ∃ it, readText st.2 f.1 = some it ∧
      readText st'.2 f.2 = some (removeBlankLines it) := by
  unfold rblStep at h
  split at h
  · exact absurd h (by simp)
  · rename_i it hit
    refine ⟨it, hit, ?_⟩
    split at h
    · rename_i hcond
      injection h with h
      subst h
      exact hcond
    · injection h with h
      subst h
      exact readText_writeText_self _ _ _

theorem rblLoop_reads :
    ∀ {files : List (AbsPath × AbsPath)} {st st' : Int × TextFS},
    rblLoop files st = .ok st' →
    ∀ p, p ∉ files.map (fun f => f.2) →
    readText st'.2 p = readText st.2 p := by
  intro files
  induction files with
  | nil =>
    intro st st' h p _
    unfold rblLoop at h
    simp only [List.foldlM_nil, pure, Except.pure] at h
    injection h with h
    subst h
    rfl
  | cons f0 rest ih =>
    intro st st' h p hp
    unfold rblLoop at h
    rw [List.foldlM_cons] at h
    cases hs : rblStep st f0 with
    | error e => rw [hs] at h; simp [Bind.bind, Except.bind] at h
    | ok st1 =>
      rw [hs, exceptOkBind] at h
      have h' : rblLoop rest st1 = .ok st' := h
      have hp0 : p ≠ f0.2 := by
        intro hEq
        exact hp (by rw [List.map_cons]; exact List.mem_cons.mpr (Or.inl hEq))
      have hprest : p ∉ rest.map (fun f => f.2) := by
        intro hmem
        exact hp (by rw [List.map_cons]; exact List.mem_cons.mpr (Or.inr hmem))
      rw [ih h' p hprest]
      exact rblStep_reads hs hp0

theorem rblLoop_outputs :
    ∀ {files : List (AbsPath × AbsPath)} {st st' : Int × TextFS},
    (files.map (fun f => f.2)).Nodup →
    (∀ f, f ∈ files → f.2 ∉ files.map (fun g => g.1)) →
    rblLoop files st = .ok st' →
    ∀ f, f ∈ files → ∃ it, readText st.2 f.1 = some it ∧
      readText st'.2 f.2 = some (removeBlankLines it) := by
  intro files
  induction files with
  | nil =>
    intro st st' _ _ _ f hf
    simp at hf
  | cons f0 rest ih =>
    intro st st' hnd hdis h f hf
    unfold rblLoop at h
    rw [List.foldlM_cons] at h
    cases hs : rblStep st f0 with
    | error e => rw [hs] at h; simp [Bind.bind, Except.bind] at h
    | ok st1 =>
      rw [hs, exceptOkBind] at h
      have h' : rblLoop rest st1 = .ok st' := h
      rw [List.map_cons] at hnd
      have hnd' := List.nodup_cons.mp hnd
      rcases List.mem_cons.mp hf with rfl | hf'
      · rcases rblStep_writes hs with ⟨it, hit, hpost⟩
        refine ⟨it, hit, ?_⟩
        rw [rblLoop_reads h' f.2 hnd'.1]
        exact hpost
      · have hdis' : ∀ g, g ∈ rest → g.2 ∉ rest.map (fun q => q.1) := by
          intro g hg hmem
          apply hdis g (List.mem_cons_of_mem _ hg)
          rw [List.map_cons]
          exact List.mem_cons.mpr (Or.inr hmem)
        rcases ih hnd'.2 hdis' h' f hf' with ⟨it, hit1, hpost⟩
        refine ⟨it, ?_, hpost⟩
        have hne : f.1 ≠ f0.2 := by
          intro hEq
          apply hdis f0 (List.mem_cons_self f0 rest)
          rw [List.map_cons]
          exact List.mem_cons.mpr (Or.inr (List.mem_map.mpr ⟨f, hf', hEq⟩))
        rw [← hit1]
        exact (rblStep_reads hs hne).symm

theorem rblLoop_rerun :
    ∀ {files : List (AbsPath × AbsPath)} {st : Int × TextFS},
    (∀ f, f ∈ files → ∃ it, readText st.2 f.1 = some it ∧
      readText st.2 f.2 = some (removeBlankLines it)) →
    rblLoop files st = .ok st := by
  intro files
  induction files with
  | nil => intro st _; rfl
  | cons f0 rest ih =>
    intro st hyp
    rcases hyp f0 (List.mem_cons_self f0 rest) with ⟨it, h1, h2⟩
    unfold rblLoop
    rw [List.foldlM_cons, rblStep_noop h1 h2, exceptOkBind]
    exact ih (fun f hf => hyp f (List.mem_cons_of_mem f0 hf))

/-- C8: when an output file already holds exactly the text the transform
would produce, the step performs no write and leaves the state unchanged (for
both minify_json and remove_blank_lines); consequently, rerunning either
command on an unchanged tree (outputs pairwise distinct and disjoint from
inputs) writes nothing: it returns 0 and the filesystem is unchanged. -/
theorem C8_read_before_write :
    (∀ (sc : AbsPath → Bool) (tr : String → String) (st : MState)
        (f : AbsPath × AbsPath) (it : String),
      readText st.tfs f.1 = some it →
      readText st.tfs f.2 = some (minifyOutput sc tr f.1 it) →
      minifyStep sc tr st f = .ok st) ∧
    (∀ (sc : AbsPath → Bool) (tr : String → String) files tfs r1 t1,
      (files.map (fun f => f.2)).Nodup →
      (∀ f, f ∈ files → f.2 ∉ files.map (fun g => g.1)) →
      minify_json_main sc tr files tfs = .ok (r1, t1) →
      minify_json_main sc tr files t1 = .ok (0, t1)) ∧
    (∀ (st : Int × TextFS) (f : AbsPath × AbsPath) (it : String),
      readText st.2 f.1 = some it →
      readText st.2 f.2 = some (removeBlankLines it) →
      rblStep st f = .ok st) ∧
    (∀ files tfs r1 t1,
      (files.map (fun f => f.2)).Nodup →
      (∀ f, f ∈ files → f.2 ∉ files.map (fun g => g.1)) →
      remove_blank_lines_main files tfs = .ok (r1, t1) →
      remove_blank_lines_main files t1 = .ok (0, t1)) := by
  refine ⟨?_, ?_, ?_, ?_⟩
  · intro sc tr st f it h1 h2
    exact minifyStep_noop h1 h2
  · intro sc tr files tfs r1 t1 hnd hdis h
    unfold minify_json_main at h ⊢
    cases hl : minifyLoop sc tr files ⟨0, 0, 0, tfs⟩ with
    | error e => rw [hl] at h; exact absurd h (by simp)
    | ok st =>
      rw [hl] at h
      injection h with h
      rw [Prod.mk.injEq] at h
      have ht1 : t1 = st.tfs := h.2.symm
      subst ht1
      have hfacts : ∀ f, f ∈ files → ∃ it,
          readText (MState.mk 0 0 0 st.tfs).tfs f.1 = some it ∧
          readText (MState.mk 0 0 0 st.tfs).tfs f.2
            = some (minifyOutput sc tr f.1 it) := by
        intro f hf
        rcases minifyLoop_outputs hnd hdis hl f hf with ⟨it, hit, hpost⟩
        refine ⟨it, ?_, hpost⟩
        have hnin := outputs_disjoint_inputs hdis f hf
        show readText st.tfs f.1 = some it
        rw [minifyLoop_reads hl f.1 hnin]
        exact hit
      rw [minifyLoop_rerun hfacts]
      simp
  · intro st f it h1 h2
    exact rblStep_noop h1 h2
  · intro files tfs r1 t1 hnd hdis h
    unfold remove_blank_lines_main at h ⊢
    have hfacts : ∀ f, f ∈ files → ∃ it,
        readText (Prod.mk (0 : Int) t1).2 f.1 = some it ∧
        readText (Prod.mk (0 : Int) t1).2 f.2
          = some (removeBlankLines it) := by
      intro f hf
      rcases rblLoop_outputs hnd hdis h f hf with ⟨it, hit, hpost⟩
      refine ⟨it, ?_, ?_⟩
      · have hnin := outputs_disjoint_inputs hdis f hf
        show readText t1 f.1 = some it
        rw [show t1 = (t1 : TextFS) from rfl]
        have := rblLoop_reads h f.1 hnin
        -- this : readText (r1, t1).2 f.1 = readText (0, tfs).2 f.1
        rw [show readText t1 f.1 = readText ((r1, t1) : Int × TextFS).2 f.1 from rfl,
          this]
        exact hit
      · show readText t1 f.2 = some (removeBlankLines it)
        exact hpost
    rw [rblLoop_rerun hfacts]

/-- Witness for C8: concrete no-op steps and idempotent reruns. -/
theorem C8_read_before_write_witness :
    minifyStep (fun _ => false) (fun _ => "m")
        ⟨0, 0, 0, [(["i"], "x"), (["o"], "m")]⟩ (["i"], ["o"])
      = .ok ⟨0, 0, 0, [(["i"], "x"), (["o"], "m")]⟩ ∧
    minify_json_main (fun _ => false) (fun _ => "m") [(["i"], ["o"])]
        [(["i"], "x"), (["o"], "m")]
      = .ok (0, [(["i"], "x"), (["o"], "m")]) ∧
    rblStep (0, [(["i"], "ab"), (["o"], "ab")]) (["i"], ["o"])
      = .ok (0, [(["i"], "ab"), (["o"], "ab")]) ∧
    remove_blank_lines_main [(["i"], ["o"])]
        [(["i"], "a\n\nb"), (["o"], "a\nb")]
      = .ok (0, [(["i"], "a\n\nb"), (["o"], "a\nb")]) :=
  ⟨C8_read_before_write.1 (fun _ => false) (fun _ => "m")
      ⟨0, 0, 0, [(["i"], "x"), (["o"], "m")]⟩ (["i"], ["o"]) "x"
      (by decide) (by decide),
    C8_read_before_write.2.1 (fun _ => false) (fun _ => "m") [(["i"], ["o"])]
      [(["i"], "x"), (["o"], "m")] 0 [(["i"], "x"), (["o"], "m")]
      (by decide) (by decide) (by decide),
    C8_read_before_write.2.2.1 (0, [(["i"], "ab"), (["o"], "ab")])
      (["i"], ["o"]) "ab" (by decide) (by decide),
    C8_read_before_write.2.2.2 [(["i"], ["o"])] [(["i"], "a\n\nb"), (["o"], "a\nb")]
      0 [(["i"], "a\n\nb"), (["o"], "a\nb")] (by decide) (by decide) (by decide)⟩

/-- commands.CommandInfo: a registered command, with the name, the
description, and the script module's main function as the callback. -/
structure CommandInfo where
  name : String
  description : String
  callback : List String → Int

/-- The selection made by the two-level argument grammar: either the
top-level default (whose callback is the help display) or a dispatched
command. -/
inductive Selected
  | helpDefault
  | cmd (c : CommandInfo)

/-- Python argparse semantics of CommandParser.parse_known_args, for an
argument list of positional tokens: with no token the subparsers action is
not triggered and the parser defaults apply (callback stays print_help); a
first token equal to a registered command name dispatches to that command's
subparser, which recognizes nothing and returns all remaining tokens as
extras; a first token matching no registered name is an argparse invalid
choice, reported via SystemExit with status 2. -/
def CommandParser.parse_known_args (commands : List CommandInfo)
    (argv : List String) : Except Nat (Selected × List String) :=
  match argv with
  | [] => .ok (.helpDefault, [])
  | t :: rest =>
    match commands.find? (fun c => c.name == t) with
    | some c => .ok (.cmd c, rest)
    | none => .error 2

/-- The value of callback(extra_args) in __main__.main: the default callback
print_help returns None, a command callback returns its integer exit code. -/
def callbackResult (sel : Selected) (extras : List String) : Option Int :=
  match sel with
  | .helpDefault => none
  | .cmd c => some (c.callback extras)

/-- Python x or 0: None and 0 give 0, any other integer gives itself. -/
def pyOrZero (v : Option Int) : Int :=
  match v with
  | none => 0
  | some x => if x = 0 then 0 else x

/-- dsv_scripts.__main__.main: parse the command line and return
callback(extra_args) or 0; an argparse failure is the SystemExit it raises. -/
def dsv_scripts_main (commands : List CommandInfo) (argv : List String) :
    Except Nat Int :=
  match CommandParser.parse_known_args commands argv with
  | .error code => .error code
  | .ok (sel, extras) => .ok (pyOrZero (callbackResult sel extras))

/-- The three registered dsv-scripts commands, with trivial callbacks
standing in for the script mains. -/
def c9commands : List CommandInfo :=
  [⟨"minify-json", "", fun _ => 0⟩,
   ⟨"remove-blank-lines", "", fun _ => 0⟩,
   ⟨"tinify-pngs", "", fun _ => 0⟩]

/-- C9 counterexample: a first token matching no registered command does not
fall back to help with exit code 0 — argparse reports an invalid choice and
the process exits with status 2; only the absent token prints help and
returns 0. -/
theorem C9_unmatched_counterexample :
    dsv_scripts_main c9commands ["bogus"] = .error 2 ∧
    dsv_scripts_main c9commands [] = .ok 0 :=
  ⟨rfl, rfl⟩

/-- C9 amended: an absent first token stays at top level, invokes the help
display and returns 0; a first positional token that matches no registered
command name makes argparse fail with its invalid-choice error, exiting with
status 2, while a matching token dispatches to that command's callback. -/
theorem C9_dispatch (commands : List CommandInfo) (t : String)
    (rest : List String) :
    dsv_scripts_main commands [] = .ok 0 ∧
    (commands.find? (fun c => c.name == t) = none →
      dsv_scripts_main commands (t :: rest) = .error 2) ∧
    (∀ c, commands.find? (fun c => c.name == t) = some c →
      dsv_scripts_main commands (t :: rest)
        = .ok (pyOrZero (some (c.callback rest)))) := by
  have hcons : CommandParser.parse_known_args commands (t :: rest)
      = match commands.find? (fun c => c.name == t) with
        | some c => .ok (.cmd c, rest)
        | none => .error 2 := rfl
  refine ⟨rfl, ?_, ?_⟩
  · intro h
    unfold dsv_scripts_main
    rw [hcons, h]
  · intro c h
    unfold dsv_scripts_main
    rw [hcons, h]
    rfl

/-- Witness for the amended C9 on the registered command set. -/
theorem C9_dispatch_witness :
    dsv_scripts_main c9commands [] = .ok 0 ∧
    dsv_scripts_main c9commands ["nope"] = .error 2 :=
  ⟨(C9_dispatch c9commands "nope" []).1,
    (C9_dispatch c9commands "nope" []).2.1 rfl⟩

/-- The value of getattr(args, "force", True) in FileIOParser.parse_args:
the parsed flag when the parser was constructed with the force option, and
True when it was not (the Namespace then has no force attribute). -/
def effectiveForce (add_force_option force_flag : Bool) : Bool :=
  if add_force_option then force_flag else true

/-- The loop of FileIOParser.parse_args over the discovered relative paths:
emit the (input, output) absolute pair and create the parent directories of
each output file. -/
def parseArgsFold (input_dir output_dir : AbsPath)
    (file_paths : List (List String)) (fs1 : FS) :
    List (AbsPath × AbsPath) × FS :=
  file_paths.foldl
    (fun st fp => (st.1 ++ [(input_dir ++ fp, output_dir ++ fp)],
      st.2.mkdirParents ((output_dir ++ fp).dropLast)))
    ([], fs1)

/-- fileio.FileIOParser.parse_args: resolve the input and output directories
passing getattr(args, "force", True) as force, discover the relevant files
scoped to the input directory, and build the file pairs, creating output
parent directories. -/
def FileIOParser.parse_args (fs : FS) (cwd : AbsPath) (file_exts : List String)
    (add_force_option : Bool) (force_flag : Bool) (paths : List RawPath)
    (input output : RawPath) : Except Err (List (AbsPath × AbsPath) × FS) :=
  match get_input_and_output_dir_paths fs cwd input output
      (effectiveForce add_force_option force_flag) with
  | .error e => .error e
  | .ok (input_dir, output_dir, fs1) =>
    match get_relevant_file_paths fs1 cwd paths file_exts (some input_dir) with
    | .error e => .error e
    | .ok file_paths => .ok (parseArgsFold input_dir output_dir file_paths fs1)

theorem get_dir_path_ne_same (fs : FS) (cwd : AbsPath) (raw : RawPath)
    (c : Bool) : get_dir_path fs cwd raw c ≠ .error .sameDirectory := by
  intro h
  simp only [get_dir_path] at h
  split at h
  · injection h with h
    exact Err.noConfusion h
  · split at h <;> split at h
    · simp at h
    · injection h with h
      exact Err.noConfusion h
    · simp at h
    · injection h with h
      exact Err.noConfusion h

theorem get_dir_path_ok {fs : FS} {cwd : AbsPath} {raw : RawPath} {c : Bool}
    {p : AbsPath} {fs' : FS} (h : get_dir_path fs cwd raw c = .ok (p, fs')) :
    p = raw.resolve cwd ∧ fs'.isDir p = true ∧
    (∀ q, fs.isDir q = true → fs'.isDir q = true) := by
  simp only [get_dir_path] at h
  split at h
  · exact absurd h (by simp)
  · split at h <;> split at h
    · rename_i hdir
      injection h with h
      rw [Prod.mk.injEq] at h
      obtain ⟨h1, h2⟩ := h
      subst h1
      subst h2
      exact ⟨rfl, hdir, fun q hq => FS.isDir_mkdirParents_of_isDir _ hq⟩
    · exact absurd h (by simp)
    · rename_i hdir
      injection h with h
      rw [Prod.mk.injEq] at h
      obtain ⟨h1, h2⟩ := h
      subst h1
      subst h2
      exact ⟨rfl, hdir, fun q hq => hq⟩
    · exact absurd h (by simp)

theorem gio_true_ne_same (fs : FS) (cwd : AbsPath) (input output : RawPath) :
    get_input_and_output_dir_paths fs cwd input output true
      ≠ .error .sameDirectory := by
  intro h
  unfold get_input_and_output_dir_paths at h
  cases h1 : get_dir_path fs cwd input true with
  | error e =>
    rw [h1] at h
    simp [Bind.bind, Except.bind] at h
    exact get_dir_path_ne_same fs cwd input true (h ▸ h1)
  | ok p =>
    obtain ⟨input_dir, fs1⟩ := p
    rw [h1] at h
    simp only [exceptOkBind] at h
    cases h2 : get_dir_path fs1 cwd output true with
    | error e =>
      rw [h2] at h
      simp [Bind.bind, Except.bind] at h
      exact get_dir_path_ne_same fs1 cwd output true (h ▸ h2)
    | ok q =>
      obtain ⟨output_dir, fs2⟩ := q
      rw [h2] at h
      simp only [exceptOkBind] at h
      simp [pure, Except.pure] at h

theorem contribution_error {fs : FS} {cwd : AbsPath} {allowed : List String}
    {raw : RawPath} {e : Err} (h : contribution fs cwd allowed raw = .error e) :
    e = .fileNotFound := by
  unfold contribution at h
  split at h
  · injection h with h
    exact h.symm
  · split at h
    · exact absurd h (by simp)
    · split at h <;> exact absurd h (by simp)

theorem collect_error {fs : FS} {cwd : AbsPath} {allowed : List String} :
    ∀ {raws : List RawPath} {acc : List AbsPath} {e : Err},
    raws.foldlM
        (fun acc raw => (contribution fs cwd allowed raw).map (acc ++ ·)) acc
      = .error e → e = .fileNotFound := by
  intro raws
  induction raws with
  | nil =>
    intro acc e h
    simp [List.foldlM_nil, pure, Except.pure] at h
  | cons r rest ih =>
    intro acc e h
    rw [List.foldlM_cons] at h
    cases hc : contribution fs cwd allowed r with
    | error e' =>
      rw [hc] at h
      simp [Except.map, Bind.bind, Except.bind] at h
      exact h ▸ contribution_error hc
    | ok x =>
      rw [hc] at h
      simp only [Except.map] at h
      rw [exceptOkBind] at h
      exact ih h

theorem getRel_ne_same (fs : FS) (cwd : AbsPath) (raws : List RawPath)
    (exts : List String) (pd : Option AbsPath) :
    get_relevant_file_paths fs cwd raws exts pd ≠ .error .sameDirectory := by
  intro h
  unfold get_relevant_file_paths getRelevantAllowed at h
  cases hs : resolveScope fs cwd pd with
  | error e =>
    rw [hs] at h
    simp [Bind.bind, Except.bind] at h
    unfold resolveScope at hs
    have hs' : (if fs.exists? (pd.getD cwd) = true then
          (Except.ok (pd.getD cwd) : Except Err AbsPath)
        else .error .fileNotFound) = .error e := hs
    split at hs'
    · simp at hs'
    · injection hs' with hs'
      exact Err.noConfusion (hs'.trans h)
  | ok scope =>
    rw [hs] at h
    simp only [exceptOkBind] at h
    cases hc : collectFilePaths fs cwd (defaultRaws raws) (normalizeExts exts) with
    | error e =>
      rw [hc] at h
      simp [Bind.bind, Except.bind] at h
      have he : e = Err.fileNotFound := by
        unfold collectFilePaths at hc
        exact collect_error hc
      exact Err.noConfusion (he.symm.trans h)
    | ok c =>
      rw [hc] at h
      simp only [exceptOkBind] at h
      simp [pure, Except.pure] at h

theorem parseArgsFold_isDir (i o : AbsPath) (q : AbsPath) :
    ∀ (fps : List (List String)) (st : List (AbsPath × AbsPath) × FS),
    st.2.isDir q = true →
    ((fps.foldl
        (fun st fp => (st.1 ++ [(i ++ fp, o ++ fp)],
          st.2.mkdirParents ((o ++ fp).dropLast))) st).2).isDir q = true := by
  intro fps
  induction fps with
  | nil =>
    intro st h
    exact h
  | cons fp rest ih =>
    intro st h
    rw [List.foldl_cons]
    exact ih _ (FS.isDir_mkdirParents_of_isDir _ h)

theorem gio_ok {fs : FS} {cwd : AbsPath} {input output : RawPath}
    {force : Bool} {i o : AbsPath} {fs2 : FS}
    (h : get_input_and_output_dir_paths fs cwd input output force
      = .ok (i, o, fs2)) :
    i = input.resolve cwd ∧ o = output.resolve cwd ∧
    fs2.isDir i = true ∧ fs2.isDir o = true := by
  unfold get_input_and_output_dir_paths at h
  cases h1 : get_dir_path fs cwd input force with
  | error e =>
    rw [h1] at h
    simp [Bind.bind, Except.bind] at h
  | ok p =>
    obtain ⟨input_dir, fs1⟩ := p
    rw [h1] at h
    simp only [exceptOkBind] at h
    cases h2 : get_dir_path fs1 cwd output force with
    | error e =>
      rw [h2] at h
      simp [Bind.bind, Except.bind] at h
    | ok q =>
      obtain ⟨output_dir, fs2'⟩ := q
      rw [h2] at h
      simp only [exceptOkBind] at h
      obtain ⟨hi1, hi2, hi3⟩ := get_dir_path_ok h1
      obtain ⟨ho1, ho2, ho3⟩ := get_dir_path_ok h2
      split at h
      · exact absurd h (by simp [throw, throwThe, MonadExceptOf.throw])
      · simp only [pure, Except.pure] at h
        injection h with h
        rw [Prod.mk.injEq] at h
        obtain ⟨hie, h⟩ := h
        rw [Prod.mk.injEq] at h
        obtain ⟨hoe, hfse⟩ := h
        subst hie
        subst hoe
        subst hfse
        exact ⟨hi1, ho1, ho3 _ hi2, ho2⟩

/-- C10: a FileIOParser constructed without the force option behaves in
parse_args exactly as if the force flag were set — the call equals the call
with the flag set, the same-directory safety check can never fire, and on
success the resolved input and output directories exist as directories in the
resulting filesystem (created when missing). -/
theorem C10_absent_force_option (fs : FS) (cwd : AbsPath)
    (file_exts : List String) (force_flag : Bool) (paths : List RawPath)
    (input output : RawPath) :
    FileIOParser.parse_args fs cwd file_exts false force_flag paths input output
      = FileIOParser.parse_args fs cwd file_exts true true paths input output ∧
    FileIOParser.parse_args fs cwd file_exts false force_flag paths input output
      ≠ .error .sameDirectory ∧
    (∀ res,
      FileIOParser.parse_args fs cwd file_exts false force_flag paths input
          output = .ok res →
      res.2.isDir (input.resolve cwd) = true ∧
      res.2.isDir (output.resolve cwd) = true) := by
  have he : FileIOParser.parse_args fs cwd file_exts false force_flag paths
      input output
      = FileIOParser.parse_args fs cwd file_exts true true paths input output :=
    rfl
  refine ⟨he, ?_, ?_⟩
  · rw [he]
    intro hcontra
    unfold FileIOParser.parse_args at hcontra
    cases h1 : get_input_and_output_dir_paths fs cwd input output
        (effectiveForce true true) with
    | error e =>
      rw [h1] at hcontra
      have hc : (Except.error e : Except Err (List (AbsPath × AbsPath) × FS))
          = .error .sameDirectory := hcontra
      injection hc with hc
      have h1' : get_input_and_output_dir_paths fs cwd input output true
          = .error .sameDirectory := by
        rw [← hc]
        exact h1
      exact gio_true_ne_same fs cwd input output h1'
    | ok p =>
      obtain ⟨input_dir, output_dir, fs1⟩ := p
      rw [h1] at hcontra
      have hc2 :
          (match get_relevant_file_paths fs1 cwd paths file_exts (some input_dir) with
            | Except.error e =>
                (Except.error e : Except Err (List (AbsPath × AbsPath) × FS))
            | Except.ok file_paths =>
                Except.ok (parseArgsFold input_dir output_dir file_paths fs1))
          = .error .sameDirectory := hcontra
      cases h2 : get_relevant_file_paths fs1 cwd paths file_exts (some input_dir) with
      | error e =>
        rw [h2] at hc2
        have hc3 : (Except.error e : Except Err (List (AbsPath × AbsPath) × FS))
            = .error .sameDirectory := hc2
        injection hc3 with hc3
        exact getRel_ne_same fs1 cwd paths file_exts (some input_dir) (hc3 ▸ h2)
      | ok fps =>
        rw [h2] at hc2
        exact absurd hc2 (by simp)
  · intro res h
    rw [he] at h
    unfold FileIOParser.parse_args at h
    cases h1 : get_input_and_output_dir_paths fs cwd input output
        (effectiveForce true true) with
    | error e =>
      rw [h1] at h
      exact absurd
        (show (Except.error e : Except Err (List (AbsPath × AbsPath) × FS))
          = .ok res from h) (by simp)
    | ok p =>
      obtain ⟨input_dir, output_dir, fs1⟩ := p
      rw [h1] at h
      have h' :
          (match get_relevant_file_paths fs1 cwd paths file_exts (some input_dir) with
            | Except.error e =>
                (Except.error e : Except Err (List (AbsPath × AbsPath) × FS))
            | Except.ok file_paths =>
                Except.ok (parseArgsFold input_dir output_dir file_paths fs1))
          = .ok res := h
      cases h2 : get_relevant_file_paths fs1 cwd paths file_exts (some input_dir) with
      | error e =>
        rw [h2] at h'
        exact absurd
          (show (Except.error e : Except Err (List (AbsPath × AbsPath) × FS))
            = .ok res from h') (by simp)
      | ok fps =>
        rw [h2] at h'
        have h'' : (Except.ok (parseArgsFold input_dir output_dir fps fs1) :
            Except Err (List (AbsPath × AbsPath) × FS)) = .ok res := h'
        injection h'' with h''
        obtain ⟨hi1, ho1, hi2, ho2⟩ := gio_ok
          (show get_input_and_output_dir_paths fs cwd input output true
            = .ok (input_dir, output_dir, fs1) from h1)
        subst h''
        constructor
        · rw [← hi1]
          unfold parseArgsFold
          exact parseArgsFold_isDir input_dir output_dir input_dir fps ([], fs1) hi2
        · rw [← ho1]
          unfold parseArgsFold
          exact parseArgsFold_isDir input_dir output_dir output_dir fps ([], fs1) ho2

/-- Witness for C10: equal missing input and output directories are created
and accepted when the parser lacks the force option. -/
theorem C10_absent_force_option_witness :
    FileIOParser.parse_args ⟨[([], true)]⟩ [] [] false false [] ⟨true, ["d"]⟩
        ⟨true, ["d"]⟩ ≠ .error .sameDirectory ∧
    ((FileIOParser.parse_args ⟨[([], true)]⟩ [] [] false false [] ⟨true, ["d"]⟩
          ⟨true, ["d"]⟩ = .ok (([], ⟨[([], true), (["d"], true)]⟩)))
      → (⟨[([], true), (["d"], true)]⟩ : FS).isDir ["d"] = true) :=
  ⟨(C10_absent_force_option ⟨[([], true)]⟩ [] [] false [] ⟨true, ["d"]⟩
      ⟨true, ["d"]⟩).2.1,
    fun h =>
      ((C10_absent_force_option ⟨[([], true)]⟩ [] [] false [] ⟨true, ["d"]⟩
        ⟨true, ["d"]⟩).2.2 (([], ⟨[([], true), (["d"], true)]⟩)) h).1⟩

end DSV
